import Mathlib

/-!
Verification of the climate-dashboard pipeline in `src/streamlit_app.py`.

The program loads three tabular datasets (global temperature anomaly, global
mean sea level, greenhouse-gas emissions), normalises them into a canonical
`(date, value)` schema, filters them by a user-chosen inclusive year range,
and exports the filtered emission table as CSV.

The embedding below models:
  * table rows as Lean structures with `Int` years and `Rat` values
    (numpy float64 arithmetic is modelled by exact rationals; the linear
    interpolations in the program are exact in this model);
  * the pandas boolean-mask row selection as `List.filter`;
  * the pandas `groupby("date").mean()` as mapping the sorted set of keys
    to group means (pandas sorts group keys ascending by default);
  * Gaussian noise draws as explicit parameters (functions from the row
    index), since the program draws them from an unseeded RNG;
  * the `try/except` fetch-and-parse attempt as an `Except` value; and
  * `st.warning` emissions as an explicit list of warning messages.
-/

namespace ClimateDash

/-- A row of the canonical two-column schema: `date` is an integer year,
`value` the measurement (float in the program, `Rat` here). -/
structure Row where
  date : Int
  value : Rat
deriving DecidableEq, Repr

/-- A row of the emission table built at lines 77-86: columns
`date`, `총배출량` (gross/total), `순배출량` (net), `CO2`. -/
structure EmissionRow where
  date : Int
  total : Rat
  net : Rat
  co2 : Rat
deriving DecidableEq, Repr

/-- The inclusive year-range predicate used by all three filters. -/
def inRange (lo hi : Int) (d : Int) : Bool :=
  decide (lo ≤ d ∧ d ≤ hi)

/-- Boolean-mask row selection
`df[(df["date"] >= lo) & (df["date"] <= hi)]` (lines 110 and 116):
keep exactly the rows whose `date` lies in `[lo, hi]`, in order. -/
def filterTable (t : List Row) (lo hi : Int) : List Row :=
  t.filter (fun r => inRange lo hi r.date)

/-- The same boolean-mask selection applied to the emission table
(lines 134-136). -/
def filterEmissionTable (t : List EmissionRow) (lo hi : Int) : List EmissionRow :=
  t.filter (fun r => inRange lo hi r.date)

/-- The filtering step of the script: from the three loaded tables and the
slider value `(lo, hi)` it computes the three filtered views
(`filtered_temp`, `filtered_sea`, `filtered_emission`, lines 110/116/134)
while the program keeps the loaded tables themselves; the second component
is the state of those tables after the step. -/
def applyYearRange (temp sea : List Row) (emis : List EmissionRow) (lo hi : Int) :
    (List Row × List Row × List EmissionRow) × (List Row × List Row × List EmissionRow) :=
  ((filterTable temp lo hi, filterTable sea lo hi, filterEmissionTable emis lo hi),
   (temp, sea, emis))

/-- Example table used by witnesses. -/
def exTable : List Row :=
  [⟨1990, 1/2⟩, ⟨2000, 2⟩, ⟨2000, 2⟩, ⟨2010, -3⟩, ⟨2025, 7⟩]

/-- Example emission table used by witnesses. -/
def exEmisTable : List EmissionRow :=
  [⟨1990, 300, 270, 250⟩, ⟨2005, 500, 470, 450⟩, ⟨2022, 750, 720, 700⟩]

/-- **C2.** For every table `T` and range `[lo, hi]` with `lo ≤ hi`, the range
filter returns exactly the rows of `T` with `lo ≤ date ≤ hi`: every output row
satisfies the predicate, every row of `T` satisfying it appears in the output
exactly as often as in `T` (in particular exactly once if it occurs once), and
the output is a sublist of `T`, so rows keep their original order. -/
theorem filter_range_correct (t : List Row) (lo hi : Int) (h : lo ≤ hi) :
    (∀ r ∈ filterTable t lo hi, lo ≤ r.date ∧ r.date ≤ hi) ∧
    (∀ r : Row, lo ≤ r.date → r.date ≤ hi →
      (filterTable t lo hi).count r = t.count r) ∧
    (filterTable t lo hi).Sublist t := by
  refine ⟨?_, ?_, ?_⟩
  · intro r hr
    have := List.mem_filter.mp hr
    simpa [inRange] using this.2
  · intro r h1 h2
    apply List.count_filter
    simp [inRange, h1, h2]
  · exact List.filter_sublist t

/-- Witness for C2 at a concrete table and range. -/
theorem filter_range_correct_witness :
    ((1995 : Int) ≤ 2005) ∧
      (filterTable exTable 1995 2005).count ⟨2000, 2⟩ = exTable.count ⟨2000, 2⟩ :=
  ⟨by decide,
    (filter_range_correct exTable 1995 2005 (by decide)).2.1 ⟨2000, 2⟩
      (by decide) (by decide)⟩

/-- **C8.** Filtering with a range disjoint from the table's dates yields the
empty table (the boolean mask selects no row; no error is possible since
`filterTable` is total). -/
theorem filter_disjoint_empty (t : List Row) (lo hi : Int)
    (h : ∀ r ∈ t, r.date < lo ∨ hi < r.date) :
    filterTable t lo hi = [] := by
  apply List.filter_eq_nil_iff.mpr
  intro r hr
  rcases h r hr with h1 | h1 <;> simp [inRange] <;> intro h2 <;> omega

/-- Witness for C8: a concrete range entirely above the example table's dates. -/
theorem filter_disjoint_empty_witness :
    (∀ r ∈ exTable, r.date < 2030 ∨ (2040 : Int) < r.date) ∧
      filterTable exTable 2030 2040 = [] := by
  have h : ∀ r ∈ exTable, r.date < 2030 ∨ (2040 : Int) < r.date := by decide
  exact ⟨h, filter_disjoint_empty exTable 2030 2040 h⟩

/-- **C9.** The filtering step does not mutate the input tables: after
computing the three filtered views the loaded tables are unchanged (pandas
boolean-mask selection returns a new frame), and the three views are the
results of applying the one filter with the one `(lo, hi)` pair — the same
interval predicate governs membership in each view. -/
theorem filter_no_mutation (temp sea : List Row) (emis : List EmissionRow)
    (lo hi : Int) :
    (applyYearRange temp sea emis lo hi).2 = (temp, sea, emis) ∧
    (applyYearRange temp sea emis lo hi).1.1 = filterTable temp lo hi ∧
    (applyYearRange temp sea emis lo hi).1.2.1 = filterTable sea lo hi ∧
    (applyYearRange temp sea emis lo hi).1.2.2 = filterEmissionTable emis lo hi ∧
    (∀ r ∈ (applyYearRange temp sea emis lo hi).1.1,
        inRange lo hi r.date = true) ∧
    (∀ r ∈ (applyYearRange temp sea emis lo hi).1.2.1,
        inRange lo hi r.date = true) ∧
    (∀ r ∈ (applyYearRange temp sea emis lo hi).1.2.2,
        inRange lo hi r.date = true) := by
  refine ⟨rfl, rfl, rfl, rfl, ?_, ?_, ?_⟩ <;>
    intro r hr <;>
    exact (List.mem_filter.mp hr).2

/-- The failure modes caught by the loaders' bare `except:` — a network
error from `pd.read_csv(url)`, a missing column in the fetched table, or a
parse error. All are handled identically. -/
inductive LoadFailure where
  | network
  | missingColumn
  | parseError
deriving DecidableEq, Repr

/-- `np.linspace a b n` at index `i`: `a + (b - a) * i / (n - 1)`
(exact in `Rat`; the program computes it in float64). -/
def linspace (a b : Rat) (n : Nat) (i : Nat) : Rat :=
  a + (b - a) * i / ((n : Rat) - 1)

/-- The synthetic fallback table built in each loader's `except:` branch:
`years = np.arange(start, stop)` and
`values = np.linspace(a, b, len(years)) + noise` where `noise i` stands for
the `i`-th draw of `np.random.normal(0, σ, len(years))`. -/
def fallbackTable (start stop : Int) (a b : Rat) (noise : Nat → Rat) : List Row :=
  (List.range (stop - start).toNat).map
    (fun (i : Nat) =>
      ⟨start + (i : Int), linspace a b (stop - start).toNat i + noise i⟩)

/-- A row of the raw NASA GISTEMP table as fetched: a `Year` column, the
`J-D` annual-mean column, and the remaining columns (monthly and seasonal
means) which the projection drops. -/
structure RawTempRow where
  year : Int
  jd : Rat
  others : List Rat
deriving DecidableEq, Repr

/-- Lines 42-43: rename `Year` to `date`, select `["date", "J-D"]` and rename
`J-D` to `value` — i.e. project each raw row to `⟨Year, J-D⟩`. -/
def tempProject (r : RawTempRow) : Row :=
  ⟨r.year, r.jd⟩

/-- The warning text of line 47. -/
def tempWarnMsg : String :=
  "NASA GISTEMP 데이터를 불러올 수 없어 예시 데이터를 사용합니다."

/-- `load_global_temp` (lines 36-50). The fetch-and-parse attempt is the
`Except` argument: `.ok raw` is a successful `pd.read_csv` of the GISTEMP
table, `.error e` any caught failure. On success: rename/project to the
canonical schema and keep rows with `date ≤ datetime.now().year`. On failure:
emit one `st.warning` and return the synthetic table for `np.arange(1990, 2023)`
with targets `0.2 → 1.2` (noise drawn with σ = 0.1). The returned pair is
(warnings emitted, resulting table). -/
def load_global_temp (fetch : Except LoadFailure (List RawTempRow))
    (currentYear : Int) (noise : Nat → Rat) : List String × List Row :=
  match fetch with
  | .ok raw =>
      ([], (raw.map tempProject).filter (fun r => decide (r.date ≤ currentYear)))
  | .error _ =>
      ([tempWarnMsg], fallbackTable 1990 2023 (1/5) (6/5) noise)

/-- **C1 (counterexample).** The claim says the fallback table spans
1990–present. Today the current year is 2026, but the fallback table built by
the code is the fixed `np.arange(1990, 2023)` span: it has 33 rows, while the
span 1990–2026 has 37 years, and no row carries the present year 2026. -/
theorem load_global_temp_fallback_not_present :
    (load_global_temp (.error .network) 2026 (fun _ => 0)).2.length = 33 ∧
    ((load_global_temp (.error .network) 2026 (fun _ => 0)).2.map Row.date).contains 2026 = false ∧
    (33 : Int) ≠ 2026 - 1990 + 1 := by
  refine ⟨by decide, by decide, by decide⟩

/-- **C1 (amended).** For every caught failure (network error, missing column,
parse error), `load_global_temp` emits exactly one user-visible warning and
returns the synthetic table over the fixed span 1990–2022: 33 rows, one per
year `1990 + i`, with value `linspace(0.2, 1.2, 33)[i] + noise[i] =
0.2 + i/32 + noise i` where `noise` are the Gaussian draws (σ = 0.1). -/
theorem load_global_temp_fallback (e : LoadFailure) (currentYear : Int)
    (noise : Nat → Rat) :
    (load_global_temp (.error e) currentYear noise).1.length = 1 ∧
    (load_global_temp (.error e) currentYear noise).2.length = 33 ∧
    (load_global_temp (.error e) currentYear noise).2.map Row.date =
      (List.range 33).map (fun i => (1990 : Int) + i) ∧
    (load_global_temp (.error e) currentYear noise).2.map Row.value =
      (List.range 33).map (fun (i : Nat) => 1/5 + (i : Rat)/32 + noise i) := by
  refine ⟨rfl, by simp [load_global_temp, fallbackTable], ?_, ?_⟩
  · simp [load_global_temp, fallbackTable, List.map_map]
    rfl
  · simp only [load_global_temp, fallbackTable, List.map_map]
    apply List.map_congr_left
    intro i _
    simp only [Function.comp_apply, linspace]
    push_cast
    ring

/-- **C5.** On a successful fetch, `load_global_temp` emits no warning and
returns exactly the raw rows projected to `⟨Year, J-D⟩` (renamed to
`date`/`value`), restricted to rows with `date` at most the current calendar
year: the result equals `filter (date ≤ currentYear) (map project raw)`, every
returned row satisfies `date ≤ currentYear`, and every raw row with
`year ≤ currentYear` appears in the result. -/
theorem load_global_temp_success (raw : List RawTempRow) (currentYear : Int)
    (noise : Nat → Rat) :
    (load_global_temp (.ok raw) currentYear noise).1 = [] ∧
    (load_global_temp (.ok raw) currentYear noise).2 =
      (raw.map tempProject).filter (fun r => decide (r.date ≤ currentYear)) ∧
    (∀ r ∈ (load_global_temp (.ok raw) currentYear noise).2,
        r.date ≤ currentYear) ∧
    (∀ q ∈ raw, q.year ≤ currentYear →
        (⟨q.year, q.jd⟩ : Row) ∈ (load_global_temp (.ok raw) currentYear noise).2) := by
  refine ⟨rfl, rfl, ?_, ?_⟩
  · intro r hr
    have := (List.mem_filter.mp hr).2
    simpa using this
  · intro q hq hle
    apply List.mem_filter.mpr
    constructor
    · exact List.mem_map.mpr ⟨q, hq, rfl⟩
    · simpa using hle

/-- Concrete raw GISTEMP table used by witnesses: one past row, one future row. -/
def exRawTemp : List RawTempRow :=
  [⟨2020, 1/10, [1, 2]⟩, ⟨2030, 2, []⟩]

/-- Witness for C5: on the concrete raw table, the 2020 row (which satisfies
`year ≤ 2026`) appears, projected, in the loader's output. -/
theorem load_global_temp_success_witness :
    (⟨2020, 1/10, [1, 2]⟩ : RawTempRow) ∈ exRawTemp ∧
      (⟨2020, 1/10⟩ : Row) ∈ (load_global_temp (.ok exRawTemp) 2026 (fun _ => 0)).2 :=
  ⟨by simp [exRawTemp],
    (load_global_temp_success exRawTemp 2026 (fun _ => 0)).2.2.2
      ⟨2020, 1/10, [1, 2]⟩ (by simp [exRawTemp]) (by decide)⟩

/-- Modelled from the spec: the `@st.cache_data` decorator (lines 36 and 52)
comes from the Streamlit library, not from this repository. Per the spec, the
decorated zero-argument loader is memoized for the process lifetime: the first
call computes and stores the result, and every later call returns the stored
value without re-running the computation. `cache` is the per-process cache
cell; the pair returned is (call result, cache after the call). -/
def cacheDataCall {α : Type} (compute : Unit → α) (cache : Option α) :
    α × Option α :=
  match cache with
  | some v => (v, some v)
  | none =>
      let v := compute ()
      (v, some v)

/-- **C6.** Calling a memoized loader a second time in the same session
returns a table identical to the first call's result, even if the remote
resource (and the ambient current year and noise draws) change between the
calls: the second call returns the cached value without re-fetching. Stated
for both dataset loaders (`load_global_temp` here and the generic computation
`g` standing for any second loader). -/
theorem cache_data_idempotent
    (f1 f2 : Except LoadFailure (List RawTempRow))
    (cy1 cy2 : Int) (n1 n2 : Nat → Rat)
    {α : Type} (g1 g2 : Unit → α) :
    (cacheDataCall (fun _ => load_global_temp f2 cy2 n2)
        (cacheDataCall (fun _ => load_global_temp f1 cy1 n1) none).2).1 =
      (cacheDataCall (fun _ => load_global_temp f1 cy1 n1) none).1 ∧
    (cacheDataCall g2 (cacheDataCall g1 none).2).1 =
      (cacheDataCall g1 none).1 := by
  exact ⟨rfl, rfl⟩

/-- A point of the `Time` column of the raw sea-level table: a full date, of
which `pd.to_datetime(...).dt.year` keeps only the calendar year. `month`
models the sub-annual part of the timestamp. -/
structure MonthDate where
  year : Int
  month : Nat
deriving DecidableEq, Repr

/-- A row of the raw CSIRO sea-level table as fetched: the `Time` column, the
`GMSL` column, and the remaining columns (e.g. the uncertainty column), which
the `groupby("date")["value"]` selection drops. -/
structure RawSeaRow where
  time : MonthDate
  value : Rat
  others : List Rat
deriving DecidableEq, Repr

/-- Insert a key into a strictly sorted list of keys, dropping it if already
present. -/
def insertKey (y : Int) : List Int → List Int
  | [] => [y]
  | z :: zs =>
      if y < z then y :: z :: zs
      else if y = z then z :: zs
      else z :: insertKey y zs

/-- The strictly sorted list of the distinct elements of `ys`. -/
def sortKeys (ys : List Int) : List Int :=
  ys.foldr insertKey []

/-- Membership in `insertKey`. -/
theorem mem_insertKey (a y : Int) (l : List Int) :
    a ∈ insertKey y l ↔ a = y ∨ a ∈ l := by
  induction l with
  | nil => simp [insertKey]
  | cons z zs ih =>
      by_cases h1 : y < z
      · simp [insertKey, h1]
      · by_cases h2 : y = z
        · subst h2
          simp only [insertKey, h1, if_neg, if_pos rfl]
          constructor
          · intro h
            exact Or.inr h
          · intro h
            rcases h with h | h
            · exact h ▸ List.mem_cons_self _ _
            · exact h
        · simp only [insertKey, h1, h2, if_neg, if_false, List.mem_cons, ih]
          tauto

/-- `insertKey` preserves strict sortedness. -/
theorem sorted_insertKey (y : Int) (l : List Int)
    (h : l.Sorted (· < ·)) : (insertKey y l).Sorted (· < ·) := by
  induction l with
  | nil => simp [insertKey]
  | cons z zs ih =>
      rw [List.sorted_cons] at h
      by_cases h1 : y < z
      · simp only [insertKey, if_pos h1]
        rw [List.sorted_cons]
        refine ⟨?_, List.sorted_cons.mpr h⟩
        intro b hb
        rcases List.mem_cons.mp hb with rfl | hb
        · exact h1
        · exact lt_trans h1 (h.1 b hb)
      · by_cases h2 : y = z
        · subst h2
          simp only [insertKey, if_neg h1, if_pos rfl]
          exact List.sorted_cons.mpr h
        · simp only [insertKey, if_neg h1, if_neg h2]
          rw [List.sorted_cons]
          refine ⟨?_, ih h.2⟩
          intro b hb
          rcases (mem_insertKey b y zs).mp hb with rfl | hb
          · omega
          · exact h.1 b hb

/-- Membership in `sortKeys`. -/
theorem mem_sortKeys (a : Int) (ys : List Int) :
    a ∈ sortKeys ys ↔ a ∈ ys := by
  induction ys with
  | nil => simp [sortKeys]
  | cons y ys ih =>
      simp only [sortKeys, List.foldr_cons, List.mem_cons]
      rw [mem_insertKey]
      exact or_congr Iff.rfl ih

/-- `sortKeys` is strictly sorted. -/
theorem sorted_sortKeys (ys : List Int) : (sortKeys ys).Sorted (· < ·) := by
  induction ys with
  | nil => simp [sortKeys]
  | cons y ys ih => exact sorted_insertKey y _ ih

/-- The group keys of `df.groupby("date")` after `date` was replaced by the
calendar year (lines 59-60): pandas produces the distinct keys sorted in
ascending order. -/
def seaKeys (raw : List RawSeaRow) : List Int :=
  sortKeys (raw.map (fun p => p.time.year))

/-- The arithmetic mean of the `value` entries of the rows whose calendar
year is `y` — one group's aggregate under `.mean()`. -/
def yearMean (raw : List RawSeaRow) (y : Int) : Rat :=
  let g := raw.filter (fun p => decide (p.time.year = y))
  (g.map (fun p => p.value)).sum / (g.length : Rat)

/-- `df.groupby("date")["value"].mean().reset_index()` (line 60): one row per
distinct year, in ascending year order, carrying that year's mean value. -/
def seaGroupMean (raw : List RawSeaRow) : List Row :=
  (seaKeys raw).map (fun y => ⟨y, yearMean raw y⟩)

/-- The warning text of line 64. -/
def seaWarnMsg : String :=
  "NOAA 해수면 데이터를 불러올 수 없어 예시 데이터를 사용합니다."

/-- `load_sea_level` (lines 52-67). On a successful fetch: rename
`Time`/`GMSL` to `date`/`value`, replace `date` by its calendar year, group by
year and average, then keep rows with `date ≤ datetime.now().year`. On any
caught failure: emit one `st.warning` and return the synthetic table for
`np.arange(1990, 2023)` with targets `0 → 100` (noise drawn with σ = 5). -/
def load_sea_level (fetch : Except LoadFailure (List RawSeaRow))
    (currentYear : Int) (noise : Nat → Rat) : List String × List Row :=
  match fetch with
  | .ok raw =>
      ([], (seaGroupMean raw).filter (fun r => decide (r.date ≤ currentYear)))
  | .error _ =>
      ([seaWarnMsg], fallbackTable 1990 2023 0 100 noise)

/-- The spec's worked example: rows (2000-01, 5), (2000-06, 7), (2001-01, 9). -/
def exRawSea : List RawSeaRow :=
  [⟨⟨2000, 1⟩, 5, []⟩, ⟨⟨2000, 6⟩, 7, []⟩, ⟨⟨2001, 1⟩, 9, []⟩]

/-- **C3.** On a successful fetch the sea-level loader groups rows by
calendar year and replaces each year's sub-annual rows by one row carrying
their arithmetic mean, then discards years beyond the current calendar year:
every output row's year occurs in the input, is at most `currentYear`, and
carries the group mean; conversely every input year `≤ currentYear` yields
exactly such an output row; and on the spec's example
`[(2000-01, 5), (2000-06, 7), (2001-01, 9)]` the result is
`[(2000, 6.0), (2001, 9.0)]`. -/
theorem load_sea_level_success (raw : List RawSeaRow) (currentYear : Int)
    (noise : Nat → Rat) :
    (load_sea_level (.ok raw) currentYear noise).1 = [] ∧
    (∀ r ∈ (load_sea_level (.ok raw) currentYear noise).2,
        (∃ p ∈ raw, p.time.year = r.date) ∧ r.date ≤ currentYear ∧
          r.value = yearMean raw r.date) ∧
    (∀ p ∈ raw, p.time.year ≤ currentYear →
        (⟨p.time.year, yearMean raw p.time.year⟩ : Row) ∈
          (load_sea_level (.ok raw) currentYear noise).2) ∧
    (load_sea_level (.ok exRawSea) 2026 (fun _ => 0)).2 =
      [⟨2000, 6⟩, ⟨2001, 9⟩] := by
  refine ⟨rfl, ?_, ?_, by
    norm_num [load_sea_level, seaGroupMean, seaKeys, sortKeys, insertKey,
      yearMean, exRawSea, List.filter]⟩
  · intro r hr
    have h1 := List.mem_filter.mp hr
    have h2 := List.mem_map.mp h1.1
    obtain ⟨y, hy, hyr⟩ := h2
    have hmem : y ∈ raw.map (fun p => p.time.year) :=
      (mem_sortKeys y _).mp hy
    obtain ⟨p, hp, hpy⟩ := List.mem_map.mp hmem
    refine ⟨⟨p, hp, by rw [hpy, ← hyr]⟩, by simpa using h1.2, by rw [← hyr]⟩
  · intro p hp hle
    apply List.mem_filter.mpr
    refine ⟨?_, by simpa using hle⟩
    apply List.mem_map.mpr
    refine ⟨p.time.year, ?_, rfl⟩
    exact (mem_sortKeys _ _).mpr (List.mem_map.mpr ⟨p, hp, rfl⟩)

/-- Witness for C3: the spec's example evaluates as claimed. -/
theorem load_sea_level_success_witness :
    (load_sea_level (.ok exRawSea) 2026 (fun _ => 0)).2 =
      [⟨2000, 6⟩, ⟨2001, 9⟩] :=
  (load_sea_level_success exRawSea 2026 (fun _ => 0)).2.2.2

/-- **C10.** For every successfully fetched input, in any row order and with
any sub-annual timestamps, the sea-level loader's output is strictly sorted
by year with no duplicate year: grouping maps the sorted distinct keys, and
the future-year filter preserves that order. The ordered-by-year, unique-dates
invariant of the canonical schema is thus enforced on this path. -/
theorem load_sea_level_sorted (raw : List RawSeaRow) (currentYear : Int)
    (noise : Nat → Rat) :
    ((load_sea_level (.ok raw) currentYear noise).2.map Row.date).Sorted (· < ·) ∧
    ((load_sea_level (.ok raw) currentYear noise).2.map Row.date).Nodup := by
  have h1 : (seaKeys raw).Sorted (· < ·) := sorted_sortKeys _
  have h2 : (seaGroupMean raw).Pairwise (fun a b => a.date < b.date) := by
    unfold seaGroupMean
    exact (List.pairwise_map).mpr (by simpa using h1)
  have h3 : (load_sea_level (.ok raw) currentYear noise).2.Pairwise
      (fun a b => a.date < b.date) := List.Pairwise.filter _ h2
  have h4 : ((load_sea_level (.ok raw) currentYear noise).2.map Row.date).Sorted
      (· < ·) := (List.pairwise_map).mpr h3
  exact ⟨h4, h4.imp (fun h => ne_of_lt h)⟩

/-- `emission_df` (lines 77-86): over `years = np.arange(1990, 2023)`,
`총배출량 = np.linspace(300, 750, 33) + np.random.normal(0, 20, 33)`,
`순배출량 = 총배출량 − np.random.normal(30, 5, 33)`,
`CO2 = 순배출량 − np.random.normal(20, 5, 33)`. The three noise arguments are
the three independently drawn noise vectors, indexed by row. -/
def emission_df (noiseG noiseA noiseB : Nat → Rat) : List EmissionRow :=
  (List.range 33).map (fun (i : Nat) =>
    ⟨1990 + (i : Int),
     linspace 300 750 33 i + noiseG i,
     (linspace 300 750 33 i + noiseG i) - noiseA i,
     ((linspace 300 750 33 i + noiseG i) - noiseA i) - noiseB i⟩)

/-- **C4.** The emission builder covers exactly the fixed span 1990–2022
(33 rows, dates `1990 + i`), its gross series is the linear interpolation
`300 + 450·i/32` plus the first noise draw, and for fixed noise draws the
construction formulas hold exactly:
`gross − net = noiseA[i]` and `net − co2 = noiseB[i]` row by row. The builder
is a pure function of the noise draws (it takes no fetch input, so it never
attempts network access). -/
theorem emission_df_construction (noiseG noiseA noiseB : Nat → Rat) :
    (emission_df noiseG noiseA noiseB).length = 33 ∧
    (emission_df noiseG noiseA noiseB).map EmissionRow.date =
      (List.range 33).map (fun (i : Nat) => (1990 : Int) + i) ∧
    (emission_df noiseG noiseA noiseB).map EmissionRow.total =
      (List.range 33).map (fun (i : Nat) => 300 + 450 * (i : Rat) / 32 + noiseG i) ∧
    (emission_df noiseG noiseA noiseB).map (fun r => r.total - r.net) =
      (List.range 33).map noiseA ∧
    (emission_df noiseG noiseA noiseB).map (fun r => r.net - r.co2) =
      (List.range 33).map noiseB := by
  refine ⟨by simp [emission_df], ?_, ?_, ?_, ?_⟩ <;>
    simp only [emission_df, List.map_map] <;>
    apply List.map_congr_left <;>
    intro i _ <;>
    simp only [Function.comp_apply, linspace] <;>
    push_cast <;>
    ring

/-- Witness for C1 (amended) at a concrete failure, current year and noise. -/
theorem load_global_temp_fallback_witness :
    (load_global_temp (.error .missingColumn) 2026 (fun _ => 0)).1.length = 1 :=
  (load_global_temp_fallback .missingColumn 2026 (fun _ => 0)).1

/-- Witness for C4 at concrete (zero) noise draws. -/
theorem emission_df_construction_witness :
    (emission_df (fun _ => 0) (fun _ => 0) (fun _ => 0)).length = 33 :=
  (emission_df_construction (fun _ => 0) (fun _ => 0) (fun _ => 0)).1

/-- Witness for C6 at concrete fetch outcomes for the two calls. -/
theorem cache_data_idempotent_witness :
    (cacheDataCall (fun _ => load_global_temp (.error .network) 2027 (fun _ => 0))
        (cacheDataCall (fun _ => load_global_temp (.ok exRawTemp) 2026 (fun _ => 0)) none).2).1 =
      (cacheDataCall (fun _ => load_global_temp (.ok exRawTemp) 2026 (fun _ => 0)) none).1 :=
  (cache_data_idempotent (.ok exRawTemp) (.error .network) 2026 2027
    (fun _ => 0) (fun _ => 0)
    (fun _ => (([], []) : List String × List Row))
    (fun _ => (([], []) : List String × List Row))).1

/-- Witness for C9 at concrete tables and range. -/
theorem filter_no_mutation_witness :
    (applyYearRange exTable exTable exEmisTable 1995 2005).2 =
      (exTable, exTable, exEmisTable) :=
  (filter_no_mutation exTable exTable exEmisTable 1995 2005).1

/-- Witness for C10 at the concrete example input. -/
theorem load_sea_level_sorted_witness :
    ((load_sea_level (.ok exRawSea) 2026 (fun _ => 0)).2.map Row.date).Nodup :=
  (load_sea_level_sorted exRawSea 2026 (fun _ => 0)).2

/-! ## CSV export (claim C7)

`csv = filtered_emission.to_csv(index=False).encode("utf-8-sig")`
(line 143). The cells of the serialized frame are float64 and int64 values;
every such value prints as a finite decimal numeral (a float64 is a binary
fraction, hence a finite decimal), so cells are modelled as exact decimal
numbers `mantissa / 10^exponent`. The blob is modelled as the string whose
first character is U+FEFF — `encode("utf-8-sig")` is exactly the UTF-8
encoding of U+FEFF followed by the text. -/

/-- A finite decimal numeral: the value `m / 10 ^ e`, printed with exactly
`e` digits after the decimal point (none if `e = 0`). -/
structure Dec where
  m : Int
  e : Nat
deriving DecidableEq, Repr

/-- A row of the emission table with its cells as the decimal numerals that
`to_csv` prints. -/
structure DecEmissionRow where
  date : Int
  total : Dec
  net : Dec
  co2 : Dec
deriving DecidableEq, Repr

/-- The big-endian decimal digit characters of `n` (empty for `0`;
`renderDec` pads with leading zeros). -/
def digitsOf (n : Nat) : List Char :=
  ((Nat.digits 10 n).reverse).map Nat.digitChar

/-- Pad a digit string with leading zeros to length at least `k`. -/
def padDigits (l : List Char) (k : Nat) : List Char :=
  List.replicate (k - l.length) '0' ++ l

/-- The unsigned part of a printed decimal numeral: the digit string of `n`,
zero-padded to at least `e + 1` digits, with — when `e > 0` — a point before
the last `e` digits. -/
def renderDecBody (n e : Nat) : List Char :=
  if e = 0 then padDigits (digitsOf n) (e + 1)
  else
    (padDigits (digitsOf n) (e + 1)).take ((padDigits (digitsOf n) (e + 1)).length - e) ++
      '.' :: (padDigits (digitsOf n) (e + 1)).drop ((padDigits (digitsOf n) (e + 1)).length - e)

/-- Print a decimal numeral: sign, integer digits, and — when `e > 0` — a
point followed by exactly `e` fractional digits (`str` on a numpy scalar). -/
def renderDec (d : Dec) : List Char :=
  if d.m < 0 then '-' :: renderDecBody d.m.natAbs d.e
  else renderDecBody d.m.natAbs d.e

/-- The header row printed by `to_csv(index=False)`: the four column names,
comma-separated. -/
def headerChars : List Char :=
  "date,총배출량,순배출량,CO2".data

/-- Join the four printed cells of a row with commas. -/
def joinComma : List (List Char) → List Char
  | [] => []
  | [f] => f
  | f :: fs => f ++ ',' :: joinComma fs

/-- One printed CSV data row. -/
def renderRow (r : DecEmissionRow) : List Char :=
  joinComma [renderDec ⟨r.date, 0⟩, renderDec r.total, renderDec r.net, renderDec r.co2]

/-- Each line of `to_csv` output is terminated by a newline (including the
last one). -/
def joinLines (ls : List (List Char)) : List Char :=
  ls.foldr (fun l acc => l ++ '\n' :: acc) []

/-- `filtered_emission.to_csv(index=False).encode("utf-8-sig")` (line 143):
the BOM character followed by the header line and one line per row. -/
def emissionCsv (t : List DecEmissionRow) : String :=
  String.mk ('\uFEFF' :: joinLines (headerChars :: t.map renderRow))

/-- Split a character list at every occurrence of `c` (the result always has
one more chunk than there are occurrences of `c`). -/
def splitOnChar (c : Char) : List Char → List (List Char)
  | [] => [[]]
  | x :: rest =>
      match splitOnChar c rest with
      | [] => [[x]]
      | f :: fs => if x = c then [] :: f :: fs else (x :: f) :: fs

/-- The value of a decimal digit character. -/
def charToDigit (c : Char) : Option Nat :=
  if c = '0' then some 0
  else if c = '1' then some 1
  else if c = '2' then some 2
  else if c = '3' then some 3
  else if c = '4' then some 4
  else if c = '5' then some 5
  else if c = '6' then some 6
  else if c = '7' then some 7
  else if c = '8' then some 8
  else if c = '9' then some 9
  else none

/-- One step of reading a digit string: shift the accumulator and add the
next digit; poison on a non-digit. -/
def digitStep (acc : Option Nat) (c : Char) : Option Nat :=
  match acc, charToDigit c with
  | some a, some d => some (a * 10 + d)
  | _, _ => none

/-- Read a big-endian digit string as a natural number; `none` on any
non-digit character. -/
def digitsToNat (l : List Char) : Option Nat :=
  l.foldl digitStep (some 0)

/-- Parse an unsigned decimal numeral: digits, optionally with one point and
a nonempty fractional part. -/
def parseUnsigned (l : List Char) : Option Dec :=
  match splitOnChar '.' l with
  | [ip] =>
      if ip.isEmpty then none
      else (digitsToNat ip).map (fun n => ⟨(n : Int), 0⟩)
  | [ip, fp] =>
      if ip.isEmpty || fp.isEmpty then none
      else (digitsToNat (ip ++ fp)).map (fun n => ⟨(n : Int), fp.length⟩)
  | _ => none

/-- Parse a signed decimal numeral. -/
def parseDec (l : List Char) : Option Dec :=
  match l with
  | [] => none
  | c :: rest =>
      if c = '-' then (parseUnsigned rest).map (fun d => ⟨-d.m, d.e⟩)
      else parseUnsigned (c :: rest)

/-- Parse an integer cell (a numeral with no fractional part). -/
def parseIntCell (l : List Char) : Option Int :=
  (parseDec l).bind (fun d => if d.e = 0 then some d.m else none)

/-- Parse one CSV data line into an emission row. -/
def parseRow (l : List Char) : Option DecEmissionRow :=
  match splitOnChar ',' l with
  | [f1, f2, f3, f4] =>
      match parseIntCell f1, parseDec f2, parseDec f3, parseDec f4 with
      | some d, some a, some b, some c => some ⟨d, a, b, c⟩
      | _, _, _, _ => none
  | _ => none

/-- Split a blob into its newline-terminated lines; fails unless the blob
ends with a newline (or is empty). -/
def splitLines (l : List Char) : Option (List (List Char)) :=
  match (splitOnChar '\n' l).reverse with
  | [] :: rest => some rest.reverse
  | _ => none

/-- Modelled from the spec: re-parsing the exported CSV (the spec's round-trip
property) is not code of this repository; this is a plain CSV reader for the
emission schema — BOM, then the fixed header line, then one row per line. -/
def parseEmissionCsv (s : String) : Option (List DecEmissionRow) :=
  match s.data with
  | [] => none
  | b :: rest =>
      if b = '\uFEFF' then
        match splitLines rest with
        | some (h :: rowLines) =>
            if h = headerChars then rowLines.mapM parseRow else none
        | _ => none
      else none

/-- `splitOnChar` always returns at least one chunk. -/
theorem splitOnChar_ne_nil (c : Char) (l : List Char) :
    splitOnChar c l ≠ [] := by
  cases l with
  | nil => simp [splitOnChar]
  | cons x rest =>
      simp only [splitOnChar]
      match h : splitOnChar c rest with
      | [] => simp
      | f :: fs =>
          by_cases hx : x = c <;> simp [hx]

/-- Splitting a chunk that does not contain the separator returns just the
chunk. -/
theorem splitOnChar_not_mem (c : Char) (l : List Char) (h : c ∉ l) :
    splitOnChar c l = [l] := by
  induction l with
  | nil => rfl
  | cons x rest ih =>
      have hx : x ≠ c := fun hc => h (hc ▸ List.mem_cons_self x rest)
      have hr : c ∉ rest := fun hc => h (List.mem_cons_of_mem x hc)
      simp only [splitOnChar, ih hr]
      simp [hx]

/-- Splitting at the first separator occurrence peels off the leading chunk. -/
theorem splitOnChar_append (c : Char) (l rest : List Char) (h : c ∉ l) :
    splitOnChar c (l ++ c :: rest) = l :: splitOnChar c rest := by
  induction l with
  | nil =>
      simp only [List.nil_append, splitOnChar]
      match hs : splitOnChar c rest with
      | [] => exact absurd hs (splitOnChar_ne_nil c rest)
      | f :: fs => simp
  | cons x l ih =>
      have hx : x ≠ c := fun hc => h (hc ▸ List.mem_cons_self x l)
      have hl : c ∉ l := fun hc => h (List.mem_cons_of_mem x hc)
      simp only [List.cons_append, splitOnChar, List.append_eq]
      rw [ih hl]
      simp [hx]

/-- Splitting on commas inverts `joinComma` when no field contains a comma. -/
theorem splitOnChar_joinComma (fs : List (List Char)) (hne : fs ≠ [])
    (h : ∀ f ∈ fs, ',' ∉ f) :
    splitOnChar ',' (joinComma fs) = fs := by
  induction fs with
  | nil => exact absurd rfl hne
  | cons f fs ih =>
      cases fs with
      | nil =>
          simp only [joinComma]
          exact splitOnChar_not_mem ',' f (h f (List.mem_cons_self f []))
      | cons g gs =>
          have hstep : joinComma (f :: g :: gs) = f ++ ',' :: joinComma (g :: gs) := rfl
          rw [hstep, splitOnChar_append ',' f _ (h f (List.mem_cons_self f _))]
          rw [ih (by simp) (fun x hx => h x (List.mem_cons_of_mem f hx))]

/-- Splitting on newlines of a newline-terminated join yields the lines plus
one trailing empty chunk. -/
theorem splitOnChar_joinLines (ls : List (List Char))
    (h : ∀ l ∈ ls, '\n' ∉ l) :
    splitOnChar '\n' (joinLines ls) = ls ++ [[]] := by
  induction ls with
  | nil => rfl
  | cons l ls ih =>
      have hstep : joinLines (l :: ls) = l ++ '\n' :: joinLines ls := rfl
      rw [hstep, splitOnChar_append '\n' l _ (h l (List.mem_cons_self l _))]
      rw [ih (fun x hx => h x (List.mem_cons_of_mem l hx))]
      rfl

/-- `splitLines` inverts `joinLines` when no line contains a newline. -/
theorem splitLines_joinLines (ls : List (List Char))
    (h : ∀ l ∈ ls, '\n' ∉ l) :
    splitLines (joinLines ls) = some ls := by
  unfold splitLines
  rw [splitOnChar_joinLines ls h]
  simp

/-- Every character of a comma-join is a comma or a character of a field. -/
theorem mem_joinComma (ch : Char) (fs : List (List Char))
    (h : ch ∈ joinComma fs) : ch = ',' ∨ ∃ f ∈ fs, ch ∈ f := by
  induction fs with
  | nil => simp [joinComma] at h
  | cons f fs ih =>
      cases fs with
      | nil =>
          simp only [joinComma] at h
          exact Or.inr ⟨f, List.mem_cons_self f [], h⟩
      | cons g gs =>
          have hstep : joinComma (f :: g :: gs) = f ++ ',' :: joinComma (g :: gs) := rfl
          rw [hstep] at h
          rcases List.mem_append.mp h with h1 | h1
          · exact Or.inr ⟨f, List.mem_cons_self f _, h1⟩
          · rcases List.mem_cons.mp h1 with rfl | h2
            · exact Or.inl rfl
            · rcases ih h2 with h3 | ⟨f2, hf2, hch⟩
              · exact Or.inl h3
              · exact Or.inr ⟨f2, List.mem_cons_of_mem f hf2, hch⟩

/-- `charToDigit` inverts `Nat.digitChar` on decimal digits. -/
theorem charToDigit_digitChar (d : Nat) (h : d < 10) :
    charToDigit (Nat.digitChar d) = some d := by
  interval_cases d <;> decide

/-- Every character printed by `digitsOf` is a decimal digit character. -/
theorem mem_digitsOf (ch : Char) (n : Nat) (h : ch ∈ digitsOf n) :
    (charToDigit ch).isSome := by
  unfold digitsOf at h
  obtain ⟨d, hd, rfl⟩ := List.mem_map.mp h
  have hd10 : d < 10 :=
    Nat.digits_lt_base (by norm_num) (List.mem_reverse.mp hd)
  rw [charToDigit_digitChar d hd10]
  rfl

/-- Every character of a zero-padded digit string is a decimal digit
character. -/
theorem mem_padDigits (ch : Char) (n k : Nat)
    (h : ch ∈ padDigits (digitsOf n) k) : (charToDigit ch).isSome := by
  unfold padDigits at h
  rcases List.mem_append.mp h with h1 | h1
  · have := List.eq_of_mem_replicate h1
    subst this
    decide
  · exact mem_digitsOf ch n h1

/-- A digit character is none of the CSV structural characters. -/
theorem digit_ne_special (ch : Char) (h : (charToDigit ch).isSome) :
    ch ≠ ',' ∧ ch ≠ '\n' ∧ ch ≠ '.' ∧ ch ≠ '-' := by
  refine ⟨?_, ?_, ?_, ?_⟩ <;> rintro rfl <;> exact absurd h (by decide)

/-- The length of a padded digit string. -/
theorem padDigits_length (l : List Char) (k : Nat) :
    (padDigits l k).length = max k l.length := by
  simp [padDigits]
  omega

/-- Reading the digit characters of a digit-value list folds up the value. -/
theorem foldl_digitStep (ds : List Nat) (h : ∀ d ∈ ds, d < 10) (a : Nat) :
    (ds.map Nat.digitChar).foldl digitStep (some a) =
      some (ds.foldl (fun x d => x * 10 + d) a) := by
  induction ds generalizing a with
  | nil => rfl
  | cons d ds ih =>
      simp only [List.map_cons, List.foldl_cons]
      have hstep : digitStep (some a) (Nat.digitChar d) = some (a * 10 + d) := by
        unfold digitStep
        rw [charToDigit_digitChar d (h d (List.mem_cons_self d ds))]
      rw [hstep]
      exact ih (fun x hx => h x (List.mem_cons_of_mem d hx)) (a * 10 + d)

/-- Folding up the reversed digit list of `Nat.digits` recovers the number. -/
theorem foldl_reverse_digits (n : Nat) :
    ((Nat.digits 10 n).reverse).foldl (fun x d => x * 10 + d) 0 = n := by
  rw [List.foldl_reverse]
  have haux : ∀ ds : List Nat,
      ds.foldr (fun x y => y * 10 + x) 0 = Nat.ofDigits 10 ds := by
    intro ds
    induction ds with
    | nil => rfl
    | cons d ds ih =>
        rw [List.foldr_cons, ih, Nat.ofDigits_cons]
        ring
  rw [haux]
  exact_mod_cast Nat.ofDigits_digits 10 n

/-- Reading back a zero-padded printed number recovers it: leading zeros
contribute nothing and the digit string folds up to `n`. -/
theorem digitsToNat_padDigits (n k : Nat) :
    digitsToNat (padDigits (digitsOf n) k) = some n := by
  unfold digitsToNat padDigits
  rw [List.foldl_append]
  have hrep : ∀ j : Nat,
      (List.replicate j '0').foldl digitStep (some 0) = some 0 := by
    intro j
    induction j with
    | zero => rfl
    | succ j ih =>
        rw [List.replicate_succ, List.foldl_cons]
        have h0 : digitStep (some 0) '0' = some 0 := by decide
        rw [h0]
        exact ih
  rw [hrep]
  unfold digitsOf
  have hlt : ∀ d ∈ (Nat.digits 10 n).reverse, d < 10 := fun d hd =>
    Nat.digits_lt_base (by norm_num) (List.mem_reverse.mp hd)
  rw [foldl_digitStep _ hlt 0, foldl_reverse_digits]

/-- Parsing back the unsigned part of a printed decimal recovers mantissa and
exponent. -/
theorem parseUnsigned_renderDecBody (n e : Nat) :
    parseUnsigned (renderDecBody n e) = some ⟨(n : Int), e⟩ := by
  have hgood : ∀ ch ∈ padDigits (digitsOf n) (e + 1), (charToDigit ch).isSome :=
    fun ch h => mem_padDigits ch n (e + 1) h
  have hdot : '.' ∉ padDigits (digitsOf n) (e + 1) :=
    fun h => (digit_ne_special _ (hgood _ h)).2.2.1 rfl
  have hlen : e + 1 ≤ (padDigits (digitsOf n) (e + 1)).length := by
    rw [padDigits_length]
    exact Nat.le_max_left _ _
  by_cases he : e = 0
  · subst he
    unfold renderDecBody parseUnsigned
    rw [if_pos rfl, splitOnChar_not_mem '.' _ hdot]
    have hne : (padDigits (digitsOf n) (0 + 1)).isEmpty = false := by
      cases hd : padDigits (digitsOf n) (0 + 1) with
      | nil => rw [hd] at hlen; simp at hlen
      | cons c t => rfl
    dsimp only
    rw [hne]
    simp only [Bool.false_eq_true, if_false]
    rw [digitsToNat_padDigits]
    rfl
  · unfold renderDecBody parseUnsigned
    rw [if_neg he]
    have htake : '.' ∉ (padDigits (digitsOf n) (e + 1)).take
        ((padDigits (digitsOf n) (e + 1)).length - e) :=
      fun h => hdot (List.take_subset _ _ h)
    have hdrop : '.' ∉ (padDigits (digitsOf n) (e + 1)).drop
        ((padDigits (digitsOf n) (e + 1)).length - e) :=
      fun h => hdot (List.drop_subset _ _ h)
    rw [splitOnChar_append '.' _ _ htake, splitOnChar_not_mem '.' _ hdrop]
    have hta : ((padDigits (digitsOf n) (e + 1)).take
        ((padDigits (digitsOf n) (e + 1)).length - e)).isEmpty = false := by
      cases hd : (padDigits (digitsOf n) (e + 1)).take
          ((padDigits (digitsOf n) (e + 1)).length - e) with
      | nil =>
          have := congrArg List.length hd
          rw [List.length_take] at this
          simp at this
          omega
      | cons c t => rfl
    have hdr : ((padDigits (digitsOf n) (e + 1)).drop
        ((padDigits (digitsOf n) (e + 1)).length - e)).isEmpty = false := by
      cases hd : (padDigits (digitsOf n) (e + 1)).drop
          ((padDigits (digitsOf n) (e + 1)).length - e) with
      | nil =>
          have := congrArg List.length hd
          rw [List.length_drop] at this
          simp at this
          omega
      | cons c t => rfl
    dsimp only
    rw [hta, hdr]
    simp only [Bool.false_eq_true, Bool.or_self, if_false]
    rw [List.take_append_drop, digitsToNat_padDigits]
    have hdl : ((padDigits (digitsOf n) (e + 1)).drop
        ((padDigits (digitsOf n) (e + 1)).length - e)).length = e := by
      rw [List.length_drop]
      omega
    rw [hdl]
    rfl

/-- The printed unsigned part starts with a digit character. -/
theorem renderDecBody_cons (n e : Nat) :
    ∃ c t, renderDecBody n e = c :: t ∧ (charToDigit c).isSome := by
  have hgood : ∀ ch ∈ padDigits (digitsOf n) (e + 1), (charToDigit ch).isSome :=
    fun ch h => mem_padDigits ch n (e + 1) h
  have hlen : e + 1 ≤ (padDigits (digitsOf n) (e + 1)).length := by
    rw [padDigits_length]
    exact Nat.le_max_left _ _
  unfold renderDecBody
  by_cases he : e = 0
  · subst he
    rw [if_pos rfl]
    cases hd : padDigits (digitsOf n) (0 + 1) with
    | nil => rw [hd] at hlen; simp at hlen
    | cons c t =>
        exact ⟨c, t, rfl, hgood c (by rw [hd]; exact List.mem_cons_self c t)⟩
  · rw [if_neg he]
    cases hd : (padDigits (digitsOf n) (e + 1)).take
        ((padDigits (digitsOf n) (e + 1)).length - e) with
    | nil =>
        have := congrArg List.length hd
        rw [List.length_take] at this
        simp at this
        omega
    | cons c t =>
        refine ⟨c, t ++ '.' :: (padDigits (digitsOf n) (e + 1)).drop
          ((padDigits (digitsOf n) (e + 1)).length - e), rfl, ?_⟩
        refine hgood c
          (List.take_subset ((padDigits (digitsOf n) (e + 1)).length - e) _ ?_)
        rw [hd]
        exact List.mem_cons_self c t

/-- Parsing back a printed decimal recovers it exactly. -/
theorem parseDec_renderDec (d : Dec) : parseDec (renderDec d) = some d := by
  obtain ⟨c, t, hct, hc⟩ := renderDecBody_cons d.m.natAbs d.e
  have hcneg : c ≠ '-' := (digit_ne_special c hc).2.2.2
  unfold renderDec
  by_cases hm : d.m < 0
  · rw [if_pos hm]
    show parseDec ('-' :: renderDecBody d.m.natAbs d.e) = some d
    simp only [parseDec]
    rw [if_pos trivial, parseUnsigned_renderDecBody]
    have hneg : -((d.m.natAbs : Int)) = d.m := by omega
    simp [hneg]
    have habs : -|d.m| = d.m := by rw [abs_of_neg hm]; ring
    rw [habs]
  · rw [if_neg hm]
    rw [hct]
    simp only [parseDec]
    rw [if_neg hcneg, ← hct, parseUnsigned_renderDecBody]
    have hpos : ((d.m.natAbs : Int)) = d.m := by omega
    simp [hpos]

/-- Parsing back a printed integer cell recovers the integer. -/
theorem parseIntCell_renderDec (z : Int) :
    parseIntCell (renderDec ⟨z, 0⟩) = some z := by
  unfold parseIntCell
  rw [parseDec_renderDec ⟨z, 0⟩]
  rfl

/-- Every character of a printed decimal is a sign, a point, or a digit. -/
theorem mem_renderDec (ch : Char) (d : Dec) (h : ch ∈ renderDec d) :
    ch = '-' ∨ ch = '.' ∨ (charToDigit ch).isSome := by
  have hbody : ∀ x ∈ renderDecBody d.m.natAbs d.e,
      x = '.' ∨ (charToDigit x).isSome := by
    intro x hx
    unfold renderDecBody at hx
    by_cases he : d.e = 0
    · rw [if_pos he] at hx
      exact Or.inr (mem_padDigits x _ _ hx)
    · rw [if_neg he] at hx
      rcases List.mem_append.mp hx with h1 | h1
      · exact Or.inr (mem_padDigits x _ _ (List.take_subset _ _ h1))
      · rcases List.mem_cons.mp h1 with rfl | h2
        · exact Or.inl rfl
        · exact Or.inr (mem_padDigits x _ _ (List.drop_subset _ _ h2))
  unfold renderDec at h
  by_cases hm : d.m < 0
  · rw [if_pos hm] at h
    rcases List.mem_cons.mp h with rfl | h1
    · exact Or.inl rfl
    · rcases hbody ch h1 with h2 | h2
      · exact Or.inr (Or.inl h2)
      · exact Or.inr (Or.inr h2)
  · rw [if_neg hm] at h
    rcases hbody ch h with h2 | h2
    · exact Or.inr (Or.inl h2)
    · exact Or.inr (Or.inr h2)

/-- No printed decimal contains a comma. -/
theorem comma_not_mem_renderDec (d : Dec) : ',' ∉ renderDec d := by
  intro h
  rcases mem_renderDec ',' d h with h1 | h1 | h1
  · exact absurd h1 (by decide)
  · exact absurd h1 (by decide)
  · exact absurd h1 (by decide)

/-- No printed decimal contains a newline. -/
theorem newline_not_mem_renderDec (d : Dec) : '\n' ∉ renderDec d := by
  intro h
  rcases mem_renderDec '\n' d h with h1 | h1 | h1
  · exact absurd h1 (by decide)
  · exact absurd h1 (by decide)
  · exact absurd h1 (by decide)

/-- No printed data row contains a newline. -/
theorem newline_not_mem_renderRow (r : DecEmissionRow) : '\n' ∉ renderRow r := by
  intro h
  rcases mem_joinComma '\n' _ h with h1 | ⟨f, hf, hm⟩
  · exact absurd h1 (by decide)
  · simp only [List.mem_cons, List.not_mem_nil, or_false] at hf
    rcases hf with rfl | rfl | rfl | rfl <;> exact newline_not_mem_renderDec _ hm

/-- Splitting a printed data row on commas recovers exactly its four printed
cells. -/
theorem splitComma_renderRow (r : DecEmissionRow) :
    splitOnChar ',' (renderRow r) =
      [renderDec ⟨r.date, 0⟩, renderDec r.total, renderDec r.net, renderDec r.co2] := by
  unfold renderRow
  apply splitOnChar_joinComma
  · simp
  · intro f hf
    simp only [List.mem_cons, List.not_mem_nil, or_false] at hf
    rcases hf with rfl | rfl | rfl | rfl <;> exact comma_not_mem_renderDec _

/-- Parsing back a printed data row recovers the row. -/
theorem parseRow_renderRow (r : DecEmissionRow) : parseRow (renderRow r) = some r := by
  unfold parseRow
  rw [splitComma_renderRow]
  dsimp only
  rw [parseIntCell_renderDec, parseDec_renderDec, parseDec_renderDec, parseDec_renderDec]

/-- Parsing back the printed data rows recovers the table. -/
theorem mapM_parseRow_map (t : List DecEmissionRow) :
    (t.map renderRow).mapM parseRow = some t := by
  induction t with
  | nil => rfl
  | cons r t ih =>
      rw [List.map_cons, List.mapM_cons, parseRow_renderRow r, ih]
      rfl

/-- **C7.** The filtered emission table serializes to a BOM-prefixed,
comma-separated text blob with a header row: the blob is a function of the
input rows alone (identical rows give byte-for-byte identical output), its
first character is U+FEFF (whose UTF-8 encoding is the `utf-8-sig` byte-order
mark), its first line is the header `date,총배출량,순배출량,CO2`, each data
row is the comma-join of its four printed cells, and re-parsing the blob
recovers the table exactly (exact recovery is in particular within
floating-point tolerance). -/
theorem emission_csv_export (t t2 : List DecEmissionRow) (h : t = t2) :
    emissionCsv t = emissionCsv t2 ∧
    (emissionCsv t).data.head? = some '\uFEFF' ∧
    (splitOnChar '\n' (emissionCsv t).data.tail).head? = some headerChars ∧
    (∀ r ∈ t, splitOnChar ',' (renderRow r) =
        [renderDec ⟨r.date, 0⟩, renderDec r.total, renderDec r.net, renderDec r.co2]) ∧
    parseEmissionCsv (emissionCsv t) = some t := by
  have hlines : ∀ l ∈ headerChars :: t.map renderRow, '\n' ∉ l := by
    intro l hl
    rcases List.mem_cons.mp hl with rfl | hl2
    · decide
    · obtain ⟨r, _, rfl⟩ := List.mem_map.mp hl2
      exact newline_not_mem_renderRow r
  refine ⟨by rw [h], rfl, ?_, fun r _ => splitComma_renderRow r, ?_⟩
  · show (splitOnChar '\n' (joinLines (headerChars :: t.map renderRow))).head? =
      some headerChars
    rw [splitOnChar_joinLines _ hlines]
    rfl
  · show parseEmissionCsv
      (String.mk ('\uFEFF' :: joinLines (headerChars :: t.map renderRow))) = some t
    unfold parseEmissionCsv
    dsimp only
    rw [if_pos rfl, splitLines_joinLines _ hlines]
    dsimp only
    rw [if_pos rfl]
    exact mapM_parseRow_map t

/-- Concrete emission table (as printed decimals) used by the C7 witness. -/
def exDecTable : List DecEmissionRow :=
  [⟨1990, ⟨3105, 1⟩, ⟨-2802, 1⟩, ⟨25, 0⟩⟩,
   ⟨1991, ⟨0, 2⟩, ⟨-5, 0⟩, ⟨123456, 3⟩⟩]

/-- Witness for C7: on a concrete table the round trip recovers the table. -/
theorem emission_csv_export_witness :
    exDecTable = exDecTable ∧
      parseEmissionCsv (emissionCsv exDecTable) = some exDecTable :=
  ⟨rfl, (emission_csv_export exDecTable exDecTable rfl).2.2.2.2⟩

end ClimateDash
